import Mathlib

/-!
Shallow embedding of the single-file C++ program `src/main.cpp` (a toy
online-judge pipeline: test runners, a test-case hierarchy, a suite container,
and a scoring pass), together with theorems settling the specification's
claims about it.  Console output (`cout` traces) is an I/O side effect the
claims do not concern and is not modelled; everything else is translated
directly from the source.
-/

namespace Laba8

/-- The concrete `ITestRunner` implementations (src/main.cpp lines 9-35):
`SimpleTestRunner`, and `AdvancedTestRunner` which stores its
`complexityLevel` field (a C++ `int`, modelled as `Int`; no arithmetic
overflows it). -/
inductive ITestRunner where
  | simpleTestRunner : ITestRunner
  | advancedTestRunner (complexityLevel : Int) : ITestRunner
deriving DecidableEq

/-- Virtual dispatch of `executeTest(input, expected)`:
`SimpleTestRunner::executeTest` (line 18) returns `input == expected`;
`AdvancedTestRunner::executeTest` (line 31) prints a trace line (not
modelled) and returns `input == expected && complexityLevel > 2`. -/
def executeTest : ITestRunner → String → String → Bool
  | .simpleTestRunner, input, expected => input == expected
  | .advancedTestRunner complexityLevel, input, expected =>
      input == expected && decide (complexityLevel > 2)

/-- The dynamic type of a test-case object.  `TestCaseBase` (line 38) is
abstract; the concrete classes are `TestCase` (line 58, holding the
`input`/`expected` strings and whatever runner was injected at construction)
and `AdvancedTestCase` (line 69, whose constructor at line 75 installs
`AdvancedTestRunner(level)` as the base's runner and records
`complexityLevel = level`). -/
inductive TestCaseBase where
  | testCase (input expected : String) (testRunner : ITestRunner)
  | advancedTestCase (input expected : String) (complexityLevel : Int)
deriving DecidableEq

/-- Modelled from the spec: `getInput` is invoked by
`TestSuite::sortTestsByInput` (line 116) but is declared nowhere in `src/`;
the spec (§4.3, sort "by input text") fixes it as the reader of the
protected `input` field of `TestCaseBase`. -/
def TestCaseBase.getInput : TestCaseBase → String
  | .testCase input _ _ => input
  | .advancedTestCase input _ _ => input

/-- Modelled from the spec: `getExpected` is invoked by
`TestSuite::findTestByExpected` (line 122) but is declared nowhere in
`src/`; the spec (§4.3, find by "expected value") fixes it as the reader of
the protected `expected` field of `TestCaseBase`. -/
def TestCaseBase.getExpected : TestCaseBase → String
  | .testCase _ expected _ => expected
  | .advancedTestCase _ expected _ => expected

/-- The `testRunner` member a case holds: a `TestCase` holds the runner
injected at construction (line 60); an `AdvancedTestCase` holds
`AdvancedTestRunner(complexityLevel)`, installed by its constructor
(line 75). -/
def TestCaseBase.heldRunner : TestCaseBase → ITestRunner
  | .testCase _ _ testRunner => testRunner
  | .advancedTestCase _ _ complexityLevel => .advancedTestRunner complexityLevel

/-- Virtual `runTest()`: `TestCaseBase::runTest` (line 50) delegates to the
held runner on the case's own `input`/`expected`;
`AdvancedTestCase::runTest` (line 77) prints a trace line (not modelled) and
then calls `TestCase::runTest`, reaching the installed
`AdvancedTestRunner(complexityLevel)`. -/
def TestCaseBase.runTest : TestCaseBase → Bool
  | .testCase input expected testRunner => executeTest testRunner input expected
  | .advancedTestCase input expected complexityLevel =>
      executeTest (.advancedTestRunner complexityLevel) input expected

/-- Virtual `clone()`: `TestCase::clone` (line 63) constructs
`TestCase(input, expected, make_unique<SimpleTestRunner>())` — it keeps the
strings but unconditionally installs a fresh `SimpleTestRunner`, discarding
the runner the original held; `AdvancedTestCase::clone` (line 82) constructs
`AdvancedTestCase(input, expected, complexityLevel)`, preserving
everything. -/
def TestCaseBase.clone : TestCaseBase → TestCaseBase
  | .testCase input expected _ => .testCase input expected .simpleTestRunner
  | .advancedTestCase input expected complexityLevel =>
      .advancedTestCase input expected complexityLevel

/-- `TestSuite` (line 88): the ordered `tests` vector.  The static counter
`totalTestSuitesCreated` is process-wide state, modelled separately below
(`totalTestSuitesCreated` over construction events). -/
structure TestSuite where
  tests : List TestCaseBase
deriving DecidableEq

/-- `TestSuite::getTests` (line 102). -/
def TestSuite.getTests (s : TestSuite) : List TestCaseBase :=
  s.tests

/-- `TestSuite::getTestCount` (line 106). -/
def TestSuite.getTestCount (s : TestSuite) : Nat :=
  s.tests.length

/-- `TestSuite::findTestByExpected` (lines 120-125): `find_if` over the
vector for the first test whose `getExpected()` equals the argument;
returns the found shared pointer, or `nullptr` (here `none`) when the
search reaches the end.  The function is total: no path raises. -/
def TestSuite.findTestByExpected (s : TestSuite) (expected : String) : Option TestCaseBase :=
  s.tests.find? (fun t => t.getExpected == expected)

/-- The comparator lambda passed to `std::sort` in
`TestSuite::sortTestsByInput` (line 115): `a->getInput() < b->getInput()`
(lexicographic `<` on `std::string`). -/
def inputLess (a b : TestCaseBase) : Bool :=
  decide (a.getInput < b.getInput)

/-- Postcondition of `TestSuite::sortTestsByInput` (lines 114-118), which
calls `std::sort` with `inputLess`.  The C++ standard guarantees exactly
this of `std::sort`: the resulting sequence is a permutation of the
original and is sorted with respect to the comparator (no adjacent pair
`a, b` has `inputLess b a`).  The relative order of elements with equal
inputs is left unspecified — `std::sort` is not a stable sort — so the
operation is modelled as this relation between the pre- and post-state of
the `tests` vector rather than as a function. -/
def sortTestsByInputPost (orig result : List TestCaseBase) : Prop :=
  result.Perm orig ∧ List.Chain' (fun a b => inputLess b a = false) result

instance (orig result : List TestCaseBase) : Decidable (sortTestsByInputPost orig result) :=
  inferInstanceAs (Decidable (_ ∧ _))

/-- `Task` (line 131): a description plus a `TestSuite` stored by value
(the constructor at line 137 copy-constructs the member from its
argument). -/
structure Task where
  description : String
  testSuite : TestSuite
deriving DecidableEq

/-- `Task::getTestSuite` (line 144). -/
def Task.getTestSuite (t : Task) : TestSuite :=
  t.testSuite

/-- `UserSolution` (line 150): an opaque code string, never parsed or
executed. -/
structure UserSolution where
  solutionCode : String
deriving DecidableEq

/-- `ExecutionResult` (line 164): the textual outcome and the pass flag.
The C++ object is built by default construction followed by the two
setters; the embedding records the final field values. -/
structure ExecutionResult where
  actualOutput : String
  isPassed : Bool
deriving DecidableEq

/-- `Submission` (line 190): the solution, the per-test results in suite
order, and the aggregate `totalPassed` (a C++ `int` counting list entries;
modelled as `Nat`, no overflow at these sizes). -/
structure Submission where
  solution : UserSolution
  results : List ExecutionResult
  totalPassed : Nat
deriving DecidableEq

/-- `runTestCase` (lines 220-225): calls `test.runTest()` (twice — once for
the text, once for the flag; `runTest` is deterministic so both calls
agree), sets `actualOutput` to `"Passed"`/`"Failed"` and `isPassed` to the
outcome.  The `solution` reference parameter is accepted but never read. -/
def runTestCase (solution : UserSolution) (test : TestCaseBase) : ExecutionResult :=
  { actualOutput := if test.runTest then "Passed" else "Failed"
    isPassed := test.runTest }

/-- The loop of `checkSolution` (lines 231-238): one `ExecutionResult` per
test in order, and the running `totalPassed` tally. -/
def checkSolutionLoop (solution : UserSolution) : List TestCaseBase → List ExecutionResult × Nat
  | [] => ([], 0)
  | t :: ts =>
      let result := runTestCase solution t
      let rest := checkSolutionLoop solution ts
      (result :: rest.1, (if result.isPassed then 1 else 0) + rest.2)

/-- `checkSolution` (lines 228-241): builds a `Submission` for the task's
suite, fills `results[i]` from `runTestCase` on the i-th test, counts the
passed ones, and stores the total. -/
def checkSolution (solution : UserSolution) (task : Task) : Submission :=
  let loop := checkSolutionLoop solution task.getTestSuite.getTests
  { solution := solution
    results := loop.1
    totalPassed := loop.2 }

/-- State-passing embedding of the `checkSolution` loop for the frame
property: the C++ function receives `task` by non-const reference, so each
iteration threads the task state through; the body only ever calls the
const accessors `getTestSuite`/`getTests`/`getTestCount` on it, which is
why each step returns the task it received. -/
def checkSolutionLoopSt (solution : UserSolution) :
    List TestCaseBase → Task → List ExecutionResult × Nat × Task
  | [], task => ([], 0, task)
  | t :: ts, task =>
      let result := runTestCase solution t
      let rest := checkSolutionLoopSt solution ts task
      (result :: rest.1, (if result.isPassed then 1 else 0) + rest.2.1, rest.2.2)

/-- `checkSolution` with the post-state of its `Task&` argument made
explicit: the returned `Task` is the state the call leaves behind. -/
def checkSolutionSt (solution : UserSolution) (task : Task) : Submission × Task :=
  let loop := checkSolutionLoopSt solution task.getTestSuite.getTests task
  ({ solution := solution
     results := loop.1
     totalPassed := loop.2.1 }, loop.2.2)

/-- The events that touch the static counter `TestSuite::totalTestSuitesCreated`
during a run: `constructSuite` is an execution of the user-defined
constructor `TestSuite()` (line 94, which does `totalTestSuitesCreated++`);
`copySuite` is an execution of the implicit copy constructor (which copies
the `tests` vector and does not touch the counter — e.g. when `Task`'s
constructor at line 137 stores a suite by value).  No member function
decrements the counter. -/
inductive SuiteEvent where
  | constructSuite : SuiteEvent
  | copySuite : SuiteEvent
deriving DecidableEq

/-- Value of the static `TestSuite::totalTestSuitesCreated` after a sequence
of events, starting from its static initialisation to `0` (line 128): each
`constructSuite` adds one, a `copySuite` adds nothing. -/
def totalTestSuitesCreated : List SuiteEvent → Nat
  | [] => 0
  | SuiteEvent.constructSuite :: es => totalTestSuitesCreated es + 1
  | SuiteEvent.copySuite :: es => totalTestSuitesCreated es

/-- The loop of `checkSolution` computes the mapped results and the count of
passing tests. -/
theorem checkSolutionLoop_eq (solution : UserSolution) (ts : List TestCaseBase) :
    checkSolutionLoop solution ts =
      (ts.map (runTestCase solution), ts.countP TestCaseBase.runTest) := by
  induction ts with
  | nil => rfl
  | cons t ts ih =>
      simp [checkSolutionLoop, ih, List.countP_cons, runTestCase, Nat.add_comm]

/-- C4.  For all text pairs (a, b), the Simple evaluator's evaluate(a, b)
returns true if and only if a equals b. -/
theorem simple_evaluate_iff (a b : String) :
    executeTest ITestRunner.simpleTestRunner a b = true ↔ a = b := by
  simp [executeTest]

/-- C3.  For all text pairs (a, b) and every integer level, the Advanced
evaluator configured with that level returns true on evaluate(a, b) if and
only if a equals b and level is greater than 2. -/
theorem advanced_evaluate_iff (a b : String) (level : Int) :
    executeTest (ITestRunner.advancedTestRunner level) a b = true ↔ (a = b ∧ level > 2) := by
  simp [executeTest]

/-- C1.  For every solution and every task whose suite holds N test cases,
checkSolution returns a Submission whose results list has length N, whose
i-th result has passed equal to the i-th test case's runTest() outcome and
actualOutput equal to "Passed" when that outcome is true and "Failed"
otherwise, and whose totalPassed equals the number of results with passed
true; in particular, for N = 0 the results list is empty and totalPassed
is 0. -/
theorem checkSolution_spec (solution : UserSolution) (task : Task) :
    (checkSolution solution task).results.length = task.getTestSuite.getTests.length ∧
    (∀ i : Nat,
      ((checkSolution solution task).results[i]?).map ExecutionResult.isPassed =
        (task.getTestSuite.getTests[i]?).map TestCaseBase.runTest ∧
      ((checkSolution solution task).results[i]?).map ExecutionResult.actualOutput =
        (task.getTestSuite.getTests[i]?).map
          (fun t => if t.runTest then "Passed" else "Failed")) ∧
    (checkSolution solution task).totalPassed =
      (checkSolution solution task).results.countP ExecutionResult.isPassed ∧
    (task.getTestSuite.getTests.length = 0 →
      (checkSolution solution task).results = [] ∧
      (checkSolution solution task).totalPassed = 0) := by
  have h := checkSolutionLoop_eq solution task.getTestSuite.getTests
  refine ⟨?_, ?_, ?_, ?_⟩
  · simp [checkSolution, h]
  · intro i
    cases hi : (task.getTestSuite.getTests)[i]? with
    | none => simp [checkSolution, h, List.getElem?_map, hi]
    | some t => simp [checkSolution, h, List.getElem?_map, hi, runTestCase]
  · simp [checkSolution, h, List.countP_map, runTestCase]
    rfl
  · intro hlen
    have hnil : task.getTestSuite.getTests = [] := List.length_eq_zero.mp hlen
    simp [checkSolution, h, hnil, checkSolutionLoop]

/-- C2 fails on the code (failing input): a base-variant `TestCase`
constructed with `AdvancedTestRunner(0)` — legal, since the constructor
accepts any runner — is cloned by `TestCase::clone` into a case holding a
fresh `SimpleTestRunner`: the evaluator configuration is not preserved,
and the clone's `runTest` outcome even differs from the original's. -/
theorem clone_resets_runner_on_base_case :
    (TestCaseBase.testCase "a" "a" (ITestRunner.advancedTestRunner 0)).clone =
      TestCaseBase.testCase "a" "a" ITestRunner.simpleTestRunner ∧
    (TestCaseBase.testCase "a" "a" (ITestRunner.advancedTestRunner 0)).clone.heldRunner ≠
      (TestCaseBase.testCase "a" "a" (ITestRunner.advancedTestRunner 0)).heldRunner ∧
    (TestCaseBase.testCase "a" "a" (ITestRunner.advancedTestRunner 0)).clone.runTest = true ∧
    (TestCaseBase.testCase "a" "a" (ITestRunner.advancedTestRunner 0)).runTest = false :=
  ⟨rfl, by decide, by decide, by decide⟩

/-- First-match characterisation of `List.find?`. -/
theorem find?_first_aux (p : TestCaseBase → Bool) (t : TestCaseBase) :
    ∀ l : List TestCaseBase, l.find? p = some t →
      p t = true ∧ ∃ l1 l2, l = l1 ++ t :: l2 ∧ ∀ u ∈ l1, p u = false := by
  intro l
  induction l with
  | nil => intro h; simp at h
  | cons a l ih =>
      intro h
      by_cases ha : p a
      · rw [List.find?_cons_of_pos _ ha] at h
        cases h
        exact ⟨ha, [], l, rfl, by simp⟩
      · rw [List.find?_cons_of_neg _ ha] at h
        have ha' : p a = false := by simpa using ha
        obtain ⟨hp, l1, l2, heq, hl1⟩ := ih h
        refine ⟨hp, a :: l1, l2, by simp [heq], ?_⟩
        intro u hu
        rcases List.mem_cons.mp hu with h1 | h2
        · simpa [h1] using ha'
        · exact hl1 u h2

/-- C7.  For every suite and every search value, findTestByExpected returns
the first test case in the suite's current order whose expected value equals
the search value, and returns an absent result (no test case) when no test
in the suite has that expected value; it never raises an error (the
embedding is a total function). -/
theorem findTestByExpected_spec (s : TestSuite) (v : String) :
    (∀ t, s.findTestByExpected v = some t →
        t.getExpected = v ∧
        ∃ l1 l2, s.tests = l1 ++ t :: l2 ∧ ∀ u ∈ l1, u.getExpected ≠ v) ∧
    (s.findTestByExpected v = none ↔ ∀ t ∈ s.tests, t.getExpected ≠ v) := by
  constructor
  · intro t ht
    obtain ⟨hp, l1, l2, heq, hl1⟩ := find?_first_aux _ t s.tests ht
    refine ⟨by simpa using hp, l1, l2, heq, ?_⟩
    intro u hu
    simpa using hl1 u hu
  · rw [TestSuite.findTestByExpected, List.find?_eq_none]
    constructor <;> intro h t ht <;> simpa using h t ht

/-- The counter splits over concatenated event sequences. -/
theorem totalTestSuitesCreated_append (es fs : List SuiteEvent) :
    totalTestSuitesCreated (es ++ fs) =
      totalTestSuitesCreated es + totalTestSuitesCreated fs := by
  induction es with
  | nil => simp [totalTestSuitesCreated]
  | cons e es ih => cases e <;> simp [totalTestSuitesCreated, ih] <;> omega

/-- C6.  The process-wide counter totalSuitesCreated starts at zero, is
incremented exactly once per explicit TestSuite construction and never on
copy-construction (for example when a Task stores a suite by value), and is
never decremented, so it is monotonically non-decreasing over the lifetime
of the process (here: over any continuation of the event sequence). -/
theorem totalTestSuitesCreated_spec (es extra : List SuiteEvent) :
    totalTestSuitesCreated [] = 0 ∧
    totalTestSuitesCreated (es ++ [SuiteEvent.constructSuite]) =
      totalTestSuitesCreated es + 1 ∧
    totalTestSuitesCreated (es ++ [SuiteEvent.copySuite]) = totalTestSuitesCreated es ∧
    totalTestSuitesCreated es ≤ totalTestSuitesCreated (es ++ extra) := by
  refine ⟨rfl, ?_, ?_, ?_⟩ <;>
    simp [totalTestSuitesCreated_append, totalTestSuitesCreated]

/-- The loop of `checkSolution` returns the same pair for any two solutions:
`runTestCase` never reads its solution argument. -/
theorem checkSolutionLoop_solution_irrelevant (s1 s2 : UserSolution)
    (ts : List TestCaseBase) :
    checkSolutionLoop s1 ts = checkSolutionLoop s2 ts := by
  induction ts with
  | nil => rfl
  | cons t ts ih => simp [checkSolutionLoop, ih, runTestCase]

/-- C9.  The evaluation outcome does not depend on the solution: for any two
solutions and the same task, checkSolution produces Submissions with
identical results lists (same passed booleans and actualOutput texts in the
same order) and identical totalPassed. -/
theorem checkSolution_solution_independent (s1 s2 : UserSolution) (task : Task) :
    (checkSolution s1 task).results = (checkSolution s2 task).results ∧
    (checkSolution s1 task).totalPassed = (checkSolution s2 task).totalPassed := by
  unfold checkSolution
  rw [checkSolutionLoop_solution_irrelevant s1 s2]
  exact ⟨rfl, rfl⟩

/-- The state-passing loop returns the same results and tally as the plain
loop and hands the task state back untouched. -/
theorem checkSolutionLoopSt_eq (solution : UserSolution) (ts : List TestCaseBase)
    (task : Task) :
    checkSolutionLoopSt solution ts task =
      ((checkSolutionLoop solution ts).1, (checkSolutionLoop solution ts).2, task) := by
  induction ts with
  | nil => rfl
  | cons t ts ih => simp [checkSolutionLoopSt, checkSolutionLoop, ih]

/-- C10.  checkSolution leaves the task unchanged: after the call, the
task's description and its suite — the number of test cases, their order,
and each case's input, expected value, and evaluator configuration (all
carried by the TestCaseBase values in the tests list) — are exactly as
before the call; and the Submission it returns is the one checkSolution
computes from that unchanged task. -/
theorem checkSolution_frame (solution : UserSolution) (task : Task) :
    (checkSolutionSt solution task).2 = task ∧
    (checkSolutionSt solution task).2.description = task.description ∧
    (checkSolutionSt solution task).2.testSuite.tests = task.testSuite.tests ∧
    (checkSolutionSt solution task).1 = checkSolution solution task := by
  have h := checkSolutionLoopSt_eq solution task.getTestSuite.getTests task
  refine ⟨?_, ?_, ?_, ?_⟩ <;> simp [checkSolutionSt, checkSolution, h]

/-- Two distinct test cases sharing the input text "dup": observably
different (their expected values differ) but equivalent under the sort
comparator, which compares inputs only. -/
def dupCaseA : TestCaseBase :=
  .testCase "dup" "e1" .simpleTestRunner

/-- Second test case with the duplicate input "dup" (see `dupCaseA`). -/
def dupCaseB : TestCaseBase :=
  .testCase "dup" "e2" .simpleTestRunner

/-- C5 fails on the code (failing input): on a suite holding two tests with
the equal input "dup" (`dupCaseA` before `dupCaseB`), the reversed order
`[dupCaseB, dupCaseA]` satisfies everything `std::sort` — which
`sortTestsByInput` calls, and which the C++ standard does not require to be
stable — guarantees about the result, yet it breaks the tie's pre-sort
relative order.  Only `std::stable_sort` would force the claimed
stability. -/
theorem sortTestsByInput_not_stable :
    sortTestsByInputPost [dupCaseA, dupCaseB] [dupCaseB, dupCaseA] ∧
    [dupCaseB, dupCaseA] ≠ [dupCaseA, dupCaseB] := by
  refine ⟨⟨List.Perm.swap dupCaseA dupCaseB [], ?_⟩, by decide⟩
  simp [List.chain'_cons, inputLess, dupCaseA, dupCaseB, TestCaseBase.getInput]

/-- C8 counterexample: with the duplicate-input suite `[dupCaseA, dupCaseB]`,
the first sort may leave the order unchanged and the second sort may swap
the two equal-input tests — both outcomes satisfy the `std::sort`
postcondition — so sorting twice need not yield the same sequence as
sorting once, refuting the claim as stated. -/
theorem sortTestsByInput_double_sort_differs :
    sortTestsByInputPost [dupCaseA, dupCaseB] [dupCaseA, dupCaseB] ∧
    sortTestsByInputPost [dupCaseA, dupCaseB] [dupCaseB, dupCaseA] ∧
    [dupCaseB, dupCaseA] ≠ [dupCaseA, dupCaseB] := by
  refine ⟨⟨List.Perm.refl _, ?_⟩, ⟨List.Perm.swap dupCaseA dupCaseB [], ?_⟩, by decide⟩ <;>
    simp [List.chain'_cons, inputLess, dupCaseA, dupCaseB, TestCaseBase.getInput]

/-- A result conforming to the sort postcondition has its input texts in
ascending (≤) order. -/
theorem sortedInputs_of_post (orig r : List TestCaseBase)
    (h : sortTestsByInputPost orig r) :
    (r.map TestCaseBase.getInput).Sorted (· ≤ ·) := by
  have hc : List.Chain' (fun a b : String => a ≤ b) (r.map TestCaseBase.getInput) := by
    rw [List.chain'_map]
    refine h.2.imp ?_
    intro a b hab
    have hlt : ¬ b.getInput < a.getInput := by simpa [inputLess] using hab
    exact not_lt.mp hlt
  rw [List.Sorted]
  exact List.chain'_iff_pairwise.mp hc

/-- Permutations with the same (duplicate-free) sequence of input texts are
equal as lists. -/
theorem perm_eq_of_inputs_eq (l₁ : List TestCaseBase) :
    ∀ l₂ : List TestCaseBase, l₁.Perm l₂ →
      l₁.map TestCaseBase.getInput = l₂.map TestCaseBase.getInput →
      (l₁.map TestCaseBase.getInput).Nodup → l₁ = l₂ := by
  induction l₁ with
  | nil =>
      intro l₂ hp _ _
      exact (hp.symm.eq_nil).symm
  | cons a t ih =>
      intro l₂ hp hm hnd
      cases l₂ with
      | nil => exact absurd hp.eq_nil (by simp)
      | cons b t₂ =>
          simp only [List.map_cons, List.cons.injEq] at hm
          obtain ⟨hab, hm'⟩ := hm
          simp only [List.map_cons, List.nodup_cons] at hnd
          obtain ⟨hna, hndt⟩ := hnd
          have hab' : a = b := by
            have ha : a ∈ b :: t₂ := hp.subset (List.mem_cons_self a t)
            rcases List.mem_cons.mp ha with h1 | h2
            · exact h1
            · exfalso
              apply hna
              rw [hm']
              exact List.mem_map_of_mem TestCaseBase.getInput h2
          subst hab'
          have ht : t.Perm t₂ := hp.cons_inv
          rw [ih t₂ ht hm' hndt]

/-- C8 (amended).  Applying sortTestsByInput twice yields a sequence that
again satisfies the sort postcondition, and whenever the suite's tests have
pairwise distinct input texts any outcome of the second sort is exactly the
outcome of the first — sorting is idempotent on duplicate-free inputs; with
duplicate inputs the `std::sort` the code calls leaves the tie order
unspecified, so exact idempotence is not guaranteed. -/
theorem sortTestsByInput_idempotent_of_distinct (orig r1 r2 : List TestCaseBase)
    (hnd : (orig.map TestCaseBase.getInput).Nodup)
    (h1 : sortTestsByInputPost orig r1) (h2 : sortTestsByInputPost r1 r2) :
    r2 = r1 := by
  have hnd1 : (r1.map TestCaseBase.getInput).Nodup :=
    ((h1.1.map TestCaseBase.getInput).nodup_iff).mpr hnd
  have hs1 := sortedInputs_of_post orig r1 h1
  have hs2 := sortedInputs_of_post r1 r2 h2
  have hm : r2.map TestCaseBase.getInput = r1.map TestCaseBase.getInput :=
    List.eq_of_perm_of_sorted (h2.1.map TestCaseBase.getInput) hs2 hs1
  have hnd2 : (r2.map TestCaseBase.getInput).Nodup := hm ▸ hnd1
  exact perm_eq_of_inputs_eq r2 r1 h2.1 hm hnd2

/-- Witness for the amended C8 at a concrete suite: two tests with the
distinct inputs "input1" and "input2"; the sorted order is forced, so the
second sort reproduces the first. -/
theorem sortTestsByInput_idempotent_witness :
    ([TestCaseBase.testCase "input1" "e1" ITestRunner.simpleTestRunner,
      TestCaseBase.advancedTestCase "input2" "e2" 3] : List TestCaseBase) =
      [TestCaseBase.testCase "input1" "e1" ITestRunner.simpleTestRunner,
       TestCaseBase.advancedTestCase "input2" "e2" 3] :=
  sortTestsByInput_idempotent_of_distinct
    [TestCaseBase.advancedTestCase "input2" "e2" 3,
     TestCaseBase.testCase "input1" "e1" ITestRunner.simpleTestRunner]
    [TestCaseBase.testCase "input1" "e1" ITestRunner.simpleTestRunner,
     TestCaseBase.advancedTestCase "input2" "e2" 3]
    [TestCaseBase.testCase "input1" "e1" ITestRunner.simpleTestRunner,
     TestCaseBase.advancedTestCase "input2" "e2" 3]
    (by decide)
    ⟨List.Perm.swap (TestCaseBase.advancedTestCase "input2" "e2" 3)
        (TestCaseBase.testCase "input1" "e1" ITestRunner.simpleTestRunner) [],
      by
        simp [List.chain'_cons, inputLess, TestCaseBase.getInput,
          String.lt_iff_toList_lt]
        decide⟩
    ⟨List.Perm.refl _,
      by
        simp [List.chain'_cons, inputLess, TestCaseBase.getInput,
          String.lt_iff_toList_lt]
        decide⟩

end Laba8
